import Mathlib

/-!
A shallow embedding of the X01 darts scoring core of `darts-rs`
(`src/libdarts-rs/src/x01/leg.rs`, `x01/ruleset.rs`, `x01/set.rs`,
`src/libdarts-rs/src/throw.rs`, together with the `Turn` value type the leg
state machine calls). Machine integers (`u8`, `u32`) are modelled as `Nat`:
the code only ever performs checked subtraction and sums of a handful of
throw values on them, so no wraparound can occur on the states the theorems
quantify over. Rust panics (`unwrap`, out-of-bounds indexing,
`panic!("Invalid state reached")`, remainder by zero) are modelled as
`Option.none`. The `&Ruleset` and `&Participants` borrows held by `Leg` and
`Set` are passed as explicit parameters to each operation, mirroring that
they are caller-owned, read-only data.
-/

namespace Darts

inductive Multiplier
  | Single
  | Double
  | Triple
deriving DecidableEq

def Multiplier.factor : Multiplier → Nat
  | .Single => 1
  | .Double => 2
  | .Triple => 3

inductive Throw
  | Bullseye (m : Multiplier)
  | Number (m : Multiplier) (n : Nat)
  | Miss
deriving DecidableEq

inductive InvalidThrowError
  | BullseyeTriple
  | InvalidNumber (n : Nat)
deriving DecidableEq

def Throw.bullseye (m : Multiplier) : Except InvalidThrowError Throw :=
  match m with
  | .Triple => .error .BullseyeTriple
  | m => .ok (Throw.Bullseye m)

def Throw.number (m : Multiplier) (n : Nat) : Except InvalidThrowError Throw :=
  if 1 ≤ n ∧ n ≤ 20 then .ok (Throw.Number m n) else .error (.InvalidNumber n)

def Throw.single (n : Nat) : Except InvalidThrowError Throw := Throw.number .Single n

def Throw.double (n : Nat) : Except InvalidThrowError Throw := Throw.number .Double n

def Throw.triple (n : Nat) : Except InvalidThrowError Throw := Throw.number .Triple n

def Throw.miss : Except InvalidThrowError Throw := .ok Throw.Miss

def Throw.points : Throw → Nat
  | .Miss => 0
  | .Bullseye m => 25 * m.factor
  | .Number m n => m.factor * n

def Throw.multiplier : Throw → Option Multiplier
  | .Bullseye m => some m
  | .Number m _ => some m
  | .Miss => none

/-- A throw the fallible constructors can produce: numbers 1..=20, no triple
bullseye. -/
def ThrowValid : Throw → Bool
  | .Miss => true
  | .Bullseye m => !(m == .Triple)
  | .Number _ n => decide (1 ≤ n ∧ n ≤ 20)

/-- Modelled from the spec: the `Turn` value type used by the Leg state
machine (spec section 4.2) — an ordered throw sequence plus a bust flag.
`src/turn.rs` holds a superseded variant with a hard 3-throw cap and no bust
flag; the revision with `bust`/`points`/`num_throws`/`is_bust` that
`x01/leg.rs` calls is absent from the sources, so it is modelled from the
spec, with the interface its callers use. -/
structure Turn where
  throws : List Throw
  bust : Bool
deriving DecidableEq

def Turn.new : Turn := ⟨[], false⟩

inductive TurnAddThrowError
  | Bust
deriving DecidableEq

def Turn.add_throw (turn : Turn) (t : Throw) : Except TurnAddThrowError Turn :=
  if turn.bust then .error .Bust
  else .ok { turn with throws := turn.throws ++ [t] }

/-- The Rust method is named `bust()`; renamed here to avoid clashing with
the field of the same name. It idempotently sets the flag, keeping throws. -/
def Turn.set_bust (turn : Turn) : Turn := { turn with bust := true }

def Turn.points (turn : Turn) : Nat :=
  if turn.bust then 0 else (turn.throws.map Throw.points).sum

def Turn.num_throws (turn : Turn) : Nat := turn.throws.length

def Turn.is_bust (turn : Turn) : Bool := turn.bust

structure Player where
  name : String
deriving DecidableEq

structure Participant where
  player : Player
deriving DecidableEq

structure Participants where
  participants : List Participant
deriving DecidableEq

def Participants.count (ps : Participants) : Nat := ps.participants.length

inductive InRule
  | Any
  | Double
  | Triple
deriving DecidableEq

def InRule.valid_throw : InRule → Throw → Bool
  | .Any, _ => true
  | .Double, t => t.multiplier == some Multiplier.Double
  | .Triple, t => t.multiplier == some Multiplier.Triple

inductive OutRule
  | Any
  | Double
  | Triple
deriving DecidableEq

def OutRule.valid_finisher : OutRule → Throw → Bool
  | .Any, _ => true
  | .Double, t => t.multiplier == some Multiplier.Double
  | .Triple, t => t.multiplier == some Multiplier.Triple

def OutRule.valid_remaining_points : OutRule → Nat → Bool
  | .Any, p => decide (1 ≤ p)
  | .Double, p => decide (2 ≤ p)
  | .Triple, p => decide (3 ≤ p)

structure SetOptions where
  num_sets : Nat
  num_legs : Nat
  win_distance : Nat
deriving DecidableEq

def is_positive (value : Nat) : Except Unit Nat :=
  if 0 < value then .ok value else .error ()

structure Ruleset where
  score : Nat
  in_rule : InRule
  out_rule : OutRule
  sets : SetOptions
deriving DecidableEq

def is_valid_score (score : Nat) : Except Unit Nat :=
  if 1 < score ∧ (score - 1) % 100 = 0 then .ok score else .error ()

structure CurrentPlayer where
  index : Nat
  points : Nat
  turn : Turn
deriving DecidableEq

inductive State
  | Finished
  | Unfinished
deriving DecidableEq

structure ParticipantData where
  turns : List Turn
deriving DecidableEq

structure Leg where
  current : CurrentPlayer
  data : List ParticipantData
deriving DecidableEq

/-- The field is named `game` in `x01/leg.rs`; the later revision consumed by
`x01/set.rs` names it `leg`. -/
structure ThrowResult where
  state : State
  game : Leg
deriving DecidableEq

def ThrowResult.unfinished (game : Leg) : ThrowResult := ⟨.Unfinished, game⟩

def ThrowResult.finished (game : Leg) : ThrowResult := ⟨.Finished, game⟩

/-- The sum inside `Leg::calculate_score`: bust turns are filtered out. -/
def ParticipantData.non_bust_points (pd : ParticipantData) : Nat :=
  (pd.turns.filterMap fun turn => if turn.is_bust then none else some turn.points).sum

def Leg.calculate_score (l : Leg) (player_index : Nat) (start_score : Nat) : Option Nat :=
  match l.data[player_index]? with
  | none => none
  | some pd =>
      if pd.non_bust_points ≤ start_score then some (start_score - pd.non_bust_points)
      else none

def Leg.begin_turn (rs : Ruleset) (l : Leg) (next_player : Nat) : Option Leg :=
  match l.calculate_score next_player rs.score with
  | some points => some { l with current := ⟨next_player, points, Turn.new⟩ }
  | none => none

def Leg.new (rs : Ruleset) (ps : Participants) : Option Leg :=
  Leg.begin_turn rs ⟨⟨0, 0, Turn.new⟩, List.replicate ps.count ⟨[]⟩⟩ 0

/-- Modelled from the spec: the `Leg::new(ruleset, participants, first_player)`
revision that `x01/set.rs` calls (absent from the sources; `x01/leg.rs` holds
the earlier two-argument revision hardcoding player 0). Spec section 3: a Leg
is created via `begin_turn(starting_index)`. -/
def Leg.new_at (rs : Ruleset) (ps : Participants) (first_player : Nat) : Option Leg :=
  Leg.begin_turn rs ⟨⟨0, 0, Turn.new⟩, List.replicate ps.count ⟨[]⟩⟩ first_player

def Leg.next_turn (rs : Ruleset) (ps : Participants) (l : Leg) : Option ThrowResult :=
  match l.data[l.current.index]? with
  | none => none
  | some pd =>
      if ps.count = 0 then none
      else
        let l' : Leg :=
          { data := l.data.set l.current.index ⟨pd.turns ++ [l.current.turn]⟩,
            current := { l.current with turn := Turn.new } }
        (Leg.begin_turn rs l' ((l.current.index + 1) % ps.count)).map ThrowResult.unfinished

def Leg.bust_turn (rs : Ruleset) (ps : Participants) (l : Leg) : Option ThrowResult :=
  Leg.next_turn rs ps { l with current := { l.current with turn := l.current.turn.set_bust } }

def Leg.current_points (l : Leg) : Option Nat :=
  if l.current.turn.points ≤ l.current.points then
    some (l.current.points - l.current.turn.points)
  else none

/-- The condition computed at the top of `Leg::add_throw`: the active player
has no completed turns and the in-progress turn holds no throws. -/
def Leg.first_throw_cond (l : Leg) : Bool :=
  (match l.data[l.current.index]? with
   | some pd => pd.turns.isEmpty
   | none => true) && l.current.turn.num_throws == 0

def Leg.add_throw (rs : Ruleset) (ps : Participants) (l : Leg) (t : Throw) : Option ThrowResult :=
  match l.data[l.current.index]? with
  | none => none
  | some _ =>
      match l.current.turn.add_throw t with
      | .error _ => none
      | .ok turn' =>
          let l' : Leg := { l with current := { l.current with turn := turn' } }
          if l.first_throw_cond && !(rs.in_rule.valid_throw t) then l'.bust_turn rs ps
          else if turn'.points ≤ l.current.points then
            let points := l.current.points - turn'.points
            if points = 0 then
              if rs.out_rule.valid_finisher t then some (ThrowResult.finished l')
              else l'.bust_turn rs ps
            else if rs.out_rule.valid_remaining_points points then
              if turn'.num_throws = 3 then l'.next_turn rs ps
              else some (ThrowResult.unfinished l')
            else l'.bust_turn rs ps
          else l'.bust_turn rs ps

inductive ThrowClass
  | inRuleBust
  | scoredOver
  | finishedWin
  | badFinisher
  | unreachableRemainder
  | turnComplete
  | turnContinues
deriving DecidableEq

/-- The branch structure of `Leg::add_throw` with each outcome named, in the
source's evaluation order: in-rule violation, then subtraction underflow,
then the exact-zero finisher check, then the reachable-remainder check, then
the 3-throw boundary. -/
def Leg.classify_throw (rs : Ruleset) (l : Leg) (t : Throw) : ThrowClass :=
  if l.first_throw_cond && !(rs.in_rule.valid_throw t) then .inRuleBust
  else if l.current.points <
      Turn.points ⟨l.current.turn.throws ++ [t], l.current.turn.bust⟩ then .scoredOver
  else if l.current.points -
      Turn.points ⟨l.current.turn.throws ++ [t], l.current.turn.bust⟩ = 0 then
    if rs.out_rule.valid_finisher t then .finishedWin else .badFinisher
  else if !(rs.out_rule.valid_remaining_points (l.current.points -
      Turn.points ⟨l.current.turn.throws ++ [t], l.current.turn.bust⟩)) then
    .unreachableRemainder
  else if Turn.num_throws ⟨l.current.turn.throws ++ [t], l.current.turn.bust⟩ = 3 then
    .turnComplete
  else .turnContinues

/-- The per-participant turn history, for theorem statements. -/
def Leg.turns_at (l : Leg) (i : Nat) : List Turn :=
  (l.data.getD i ⟨[]⟩).turns

/-- The state invariant of the leg state machine, established by `Leg.new`
and preserved by `Leg.add_throw`. -/
def LegWF (rs : Ruleset) (ps : Participants) (l : Leg) : Prop :=
  l.data.length = ps.count ∧
  0 < ps.count ∧
  l.current.index < ps.count ∧
  l.current.turn.bust = false ∧
  (∀ i < l.data.length, (l.data.getD i ⟨[]⟩).non_bust_points ≤ rs.score) ∧
  l.current.points + (l.data.getD l.current.index ⟨[]⟩).non_bust_points = rs.score ∧
  l.current.turn.points ≤ l.current.points

instance (rs : Ruleset) (ps : Participants) (l : Leg) : Decidable (LegWF rs ps l) := by
  unfold LegWF
  infer_instance

/-- Leg states reachable through the public API: `Leg::new` followed by any
sequence of `Leg::add_throw` calls with constructible throws. -/
inductive Reachable (rs : Ruleset) (ps : Participants) : Leg → Prop
  | new (l : Leg) : Leg.new rs ps = some l → Reachable rs ps l
  | step (l : Leg) (t : Throw) (r : ThrowResult) :
      Reachable rs ps l → ThrowValid t = true →
      Leg.add_throw rs ps l t = some r → Reachable rs ps r.game

structure Set where
  legs : List Leg
  current_leg : Leg
  first_player : Nat
deriving DecidableEq

inductive CreateSetError
  | InvalidFirstPlayer (n : Nat)
deriving DecidableEq

def Set.new (rs : Ruleset) (ps : Participants) (first_player : Nat) :
    Except CreateSetError (Option Set) :=
  if ps.count ≤ first_player then .error (.InvalidFirstPlayer first_player)
  else .ok ((Leg.new_at rs ps first_player).map fun leg => ⟨[], leg, first_player⟩)

def Set.current_leg_number (s : Set) : Nat := s.legs.length + 1

def Set.add_throw (rs : Ruleset) (ps : Participants) (s : Set) (t : Throw) : Option Set :=
  match Leg.add_throw rs ps s.current_leg t with
  | none => none
  | some r =>
      match r.state with
      | .Finished =>
          let first' := (s.first_player + 1) % ps.count
          (Leg.new_at rs ps first').map fun fresh => ⟨s.legs ++ [r.game], fresh, first'⟩
      | .Unfinished => some { s with current_leg := r.game }

/-- Feeding a whole sequence of throws through `Set::add_throw`. -/
def Set.run (rs : Ruleset) (ps : Participants) (s : Set) (ts : List Throw) : Option Set :=
  match ts with
  | [] => some s
  | t :: rest =>
      match Set.add_throw rs ps s t with
      | none => none
      | some s' => Set.run rs ps s' rest

/-- The leg state with the incoming throw appended to the in-progress turn:
the value `Leg::add_throw` works on after the `Turn::add_throw` call. -/
def Leg.with_throw (l : Leg) (t : Throw) : Leg :=
  { l with current := { l.current with turn :=
      { l.current.turn with throws := l.current.turn.throws ++ [t] } } }

/-- Ruleset 101 with no entry or exit constraint, as in the leg tests. -/
def rs101 : Ruleset := ⟨101, InRule.Any, OutRule.Any, ⟨1, 1, 1⟩⟩

/-- Ruleset 101 with a Double exit constraint. -/
def rs101DoubleOut : Ruleset := ⟨101, InRule.Any, OutRule.Double, ⟨1, 1, 1⟩⟩

/-- Ruleset 101 with a Double entry constraint. -/
def rs101DoubleIn : Ruleset := ⟨101, InRule.Double, OutRule.Any, ⟨1, 1, 1⟩⟩

def t20 : Throw := Throw.Number Multiplier.Triple 20

def d20 : Throw := Throw.Number Multiplier.Double 20

def t13 : Throw := Throw.Number Multiplier.Triple 13

def s2 : Throw := Throw.Number Multiplier.Single 2

/-- A mid-leg state: one completed non-bust turn worth 60 (Triple-20 then two
misses), 41 points remaining, fresh in-progress turn. -/
def overthrowLeg : Leg := ⟨⟨0, 41, Turn.new⟩, [⟨[⟨[t20, Throw.Miss, Throw.Miss], false⟩]⟩]⟩

/-- A mid-turn state from 101: Triple-20 and Triple-13 already thrown this
turn (99 points), 2 remaining. -/
def checkoutLeg : Leg := ⟨⟨0, 101, ⟨[t20, t13], false⟩⟩, [⟨[]⟩]⟩

def s1 : Throw := Throw.Number Multiplier.Single 1

/-- A mid-turn state from 101: Triple-20 and Double-20 already thrown this
turn (100 points), 1 remaining; a Single-1 would finish. -/
def finishLeg : Leg := ⟨⟨0, 101, ⟨[t20, d20], false⟩⟩, [⟨[]⟩]⟩

/-- The result of the finishing Single-1 on `finishLeg`. -/
def finishedResult : ThrowResult :=
  ThrowResult.finished ⟨⟨0, 101, ⟨[t20, d20, s1], false⟩⟩, [⟨[]⟩]⟩

/-- A two-player state where the second player is about to make the first
throw of their own first turn (the first player busted the opening throw
against a Double in-rule). -/
def secondPlayerLeg : Leg := ⟨⟨1, 101, Turn.new⟩, [⟨[⟨[s1], true⟩]⟩, ⟨[]⟩]⟩

def soloRoster : Participants := ⟨[⟨⟨"Anna"⟩⟩]⟩

def duoRoster : Participants := ⟨[⟨⟨"Anna"⟩⟩, ⟨⟨"Pete"⟩⟩]⟩

theorem Turn.points_of_not_bust (turn : Turn) (hb : turn.bust = false) :
    turn.points = (turn.throws.map Throw.points).sum := by
  simp [Turn.points, hb]

theorem Turn.points_push (turn : Turn) (t : Throw) (hb : turn.bust = false) :
    Turn.points ⟨turn.throws ++ [t], turn.bust⟩ = turn.points + t.points := by
  simp [Turn.points, hb]

theorem ParticipantData.non_bust_points_push (pd : ParticipantData) (turn : Turn) :
    ParticipantData.non_bust_points ⟨pd.turns ++ [turn]⟩ =
      pd.non_bust_points + (if turn.is_bust then 0 else turn.points) := by
  simp only [ParticipantData.non_bust_points, List.filterMap_append, List.sum_append]
  split <;> rename_i h <;> simp [List.filterMap, h]

theorem getD_eq_of_getElem? {α : Type} {l : List α} {i : Nat} {a d : α}
    (h : l[i]? = some a) : l.getD i d = a := by
  rw [List.getD_eq_getElem?_getD, h]
  rfl

theorem getD_set_self {α : Type} (l : List α) (i : Nat) (b d : α) (h : i < l.length) :
    (l.set i b).getD i d = b := by
  rw [List.getD_eq_getElem?_getD, List.getElem?_set_self h]
  rfl

theorem getD_set_ne {α : Type} (l : List α) (i j : Nat) (b d : α) (h : i ≠ j) :
    (l.set i b).getD j d = l.getD j d := by
  rw [List.getD_eq_getElem?_getD, List.getElem?_set_ne h, ← List.getD_eq_getElem?_getD]

theorem Leg.begin_turn_some (rs : Ruleset) (l : Leg) (i : Nat) (pd : ParticipantData)
    (hpd : l.data[i]? = some pd) (hle : pd.non_bust_points ≤ rs.score) :
    Leg.begin_turn rs l i =
      some { l with current := ⟨i, rs.score - pd.non_bust_points, Turn.new⟩ } := by
  simp [Leg.begin_turn, Leg.calculate_score, hpd, hle]

/-- Ending a turn (`Leg::next_turn`): the in-progress turn is pushed into the
active player history, play rotates by one modulo the participant count, and
the incoming player points are recomputed by `begin_turn`. The `hcontrib`
hypothesis bounds the pushed turn contribution so that the recomputation
cannot underflow. -/
theorem Leg.next_turn_wf (rs : Ruleset) (ps : Participants) (l : Leg)
    (hlen : l.data.length = ps.count) (hn : 0 < ps.count)
    (hidx : l.current.index < ps.count)
    (hall : ∀ i < l.data.length, (l.data.getD i ⟨[]⟩).non_bust_points ≤ rs.score)
    (hcontrib : (l.data.getD l.current.index ⟨[]⟩).non_bust_points +
        (if l.current.turn.is_bust then 0 else l.current.turn.points) ≤ rs.score) :
    ∃ g : Leg,
      Leg.next_turn rs ps l = some (ThrowResult.unfinished g) ∧
      LegWF rs ps g ∧
      g.current.index = (l.current.index + 1) % ps.count ∧
      g.current.turn = Turn.new ∧
      g.data = l.data.set l.current.index
        ⟨(l.data.getD l.current.index ⟨[]⟩).turns ++ [l.current.turn]⟩ ∧
      g.current.points = rs.score - (g.data.getD g.current.index ⟨[]⟩).non_bust_points := by
  have hidx' : l.current.index < l.data.length := by omega
  obtain ⟨pd, hpd⟩ : ∃ pd, l.data[l.current.index]? = some pd :=
    ⟨_, List.getElem?_eq_getElem hidx'⟩
  have hgd : l.data.getD l.current.index ⟨[]⟩ = pd := getD_eq_of_getElem? hpd
  have hjlt : (l.current.index + 1) % ps.count < ps.count := Nat.mod_lt _ hn
  have hlen' :
      (l.data.set l.current.index ⟨pd.turns ++ [l.current.turn]⟩).length = ps.count := by
    simp [hlen]
  have hall' : ∀ i < ps.count,
      ((l.data.set l.current.index ⟨pd.turns ++ [l.current.turn]⟩).getD i
        ⟨[]⟩).non_bust_points ≤ rs.score := by
    intro i hi
    by_cases hie : l.current.index = i
    · subst hie
      rw [getD_set_self _ _ _ _ hidx', ParticipantData.non_bust_points_push]
      rw [hgd] at hcontrib
      exact hcontrib
    · rw [getD_set_ne _ _ _ _ _ hie]
      exact hall i (by omega)
  obtain ⟨pd', hpd'⟩ : ∃ pd',
      (l.data.set l.current.index ⟨pd.turns ++ [l.current.turn]⟩)[(l.current.index + 1) %
        ps.count]? = some pd' :=
    ⟨_, List.getElem?_eq_getElem (by omega)⟩
  have hgd' :
      (l.data.set l.current.index ⟨pd.turns ++ [l.current.turn]⟩).getD
        ((l.current.index + 1) % ps.count) ⟨[]⟩ = pd' := getD_eq_of_getElem? hpd'
  have hle' : pd'.non_bust_points ≤ rs.score := by
    have h := hall' ((l.current.index + 1) % ps.count) hjlt
    rwa [hgd'] at h
  refine ⟨⟨⟨(l.current.index + 1) % ps.count, rs.score - pd'.non_bust_points, Turn.new⟩,
      l.data.set l.current.index ⟨pd.turns ++ [l.current.turn]⟩⟩, ?_, ?_, rfl, rfl, ?_, ?_⟩
  · have hc0 : ps.count ≠ 0 := by omega
    simp only [Leg.next_turn, hpd, hc0, if_false]
    rw [Leg.begin_turn_some rs _ _ pd' hpd' hle']
    rfl
  · refine ⟨hlen', hn, hjlt, rfl, ?_, ?_, ?_⟩
    · intro i hi
      have hi' : i < ps.count := by simpa [hlen] using hi
      exact hall' i hi'
    · simp only [hgd']
      omega
    · simp [Turn.points, Turn.new]
  · rw [hgd]
  · simp only [hgd']
/-- `Leg::bust_turn` marks the in-progress turn bust and ends it: the busted
turn is pushed into the active player history where it contributes nothing to
`non_bust_points`. -/
theorem Leg.bust_turn_wf (rs : Ruleset) (ps : Participants) (l : Leg)
    (hlen : l.data.length = ps.count) (hn : 0 < ps.count)
    (hidx : l.current.index < ps.count)
    (hall : ∀ i < l.data.length, (l.data.getD i ⟨[]⟩).non_bust_points ≤ rs.score) :
    ∃ g : Leg,
      Leg.bust_turn rs ps l = some (ThrowResult.unfinished g) ∧
      LegWF rs ps g ∧
      g.current.index = (l.current.index + 1) % ps.count ∧
      g.current.turn = Turn.new ∧
      g.data = l.data.set l.current.index
        ⟨(l.data.getD l.current.index ⟨[]⟩).turns ++ [l.current.turn.set_bust]⟩ ∧
      g.current.points = rs.score - (g.data.getD g.current.index ⟨[]⟩).non_bust_points := by
  have h := Leg.next_turn_wf rs ps
    { l with current := { l.current with turn := l.current.turn.set_bust } }
    hlen hn hidx hall ?_
  · obtain ⟨g, h1, h2, h3, h4, h5, h6⟩ := h
    exact ⟨g, h1, h2, h3, h4, h5, h6⟩
  · have h0 := hall l.current.index (by omega)
    simpa [Turn.is_bust, Turn.set_bust] using h0

/-- One unfolding of `Leg::add_throw` when the active player exists and the
in-progress turn is not bust: the decision tree over the appended turn. -/
theorem Leg.add_throw_eq (rs : Ruleset) (ps : Participants) (l : Leg) (t : Throw)
    (pd : ParticipantData)
    (hpd : l.data[l.current.index]? = some pd) (hb : l.current.turn.bust = false) :
    Leg.add_throw rs ps l t =
      if l.first_throw_cond && !(rs.in_rule.valid_throw t) then
        Leg.bust_turn rs ps (l.with_throw t)
      else if l.current.turn.points + t.points ≤ l.current.points then
        if l.current.points - (l.current.turn.points + t.points) = 0 then
          if rs.out_rule.valid_finisher t then some (ThrowResult.finished (l.with_throw t))
          else Leg.bust_turn rs ps (l.with_throw t)
        else if rs.out_rule.valid_remaining_points
            (l.current.points - (l.current.turn.points + t.points)) then
          if l.current.turn.num_throws + 1 = 3 then Leg.next_turn rs ps (l.with_throw t)
          else some (ThrowResult.unfinished (l.with_throw t))
        else Leg.bust_turn rs ps (l.with_throw t)
      else Leg.bust_turn rs ps (l.with_throw t) := by
  simp only [Leg.add_throw, hpd]
  simp [Turn.add_throw, hb, Leg.with_throw, Turn.points, Turn.num_throws]

/-- `Leg::add_throw` is total on well-formed states and preserves the
invariant (progress and preservation in one statement). -/
theorem Leg.add_throw_wf (rs : Ruleset) (ps : Participants) (l : Leg) (t : Throw)
    (hwf : LegWF rs ps l) :
    ∃ r : ThrowResult, Leg.add_throw rs ps l t = some r ∧ LegWF rs ps r.game := by
  obtain ⟨hlen, hn, hidx, hb, hall, hcur, hturn⟩ := hwf
  obtain ⟨pd, hpd⟩ : ∃ pd, l.data[l.current.index]? = some pd :=
    ⟨_, List.getElem?_eq_getElem (by omega)⟩
  have hpts : (l.with_throw t).current.turn.points = l.current.turn.points + t.points := by
    simp [Leg.with_throw, Turn.points, hb]
  rw [Leg.add_throw_eq rs ps l t pd hpd hb]
  by_cases h1 : (l.first_throw_cond && !(rs.in_rule.valid_throw t)) = true
  · simp only [h1, if_true]
    obtain ⟨g, hg1, hg2, _⟩ := Leg.bust_turn_wf rs ps (l.with_throw t) hlen hn hidx hall
    exact ⟨_, hg1, hg2⟩
  · simp only [h1, if_false]
    by_cases h2 : l.current.turn.points + t.points ≤ l.current.points
    · simp only [h2, if_true]
      by_cases h3 : l.current.points - (l.current.turn.points + t.points) = 0
      · simp only [h3, if_true]
        by_cases h4 : rs.out_rule.valid_finisher t = true
        · simp only [h4, if_true]
          refine ⟨_, rfl, hlen, hn, hidx, hb, hall, hcur, ?_⟩
          show (l.with_throw t).current.turn.points ≤ (l.with_throw t).current.points
          rw [hpts]
          exact h2
        · simp only [h4, if_false]
          obtain ⟨g, hg1, hg2, _⟩ := Leg.bust_turn_wf rs ps (l.with_throw t) hlen hn hidx hall
          exact ⟨_, hg1, hg2⟩
      · simp only [h3, if_false]
        by_cases h5 : rs.out_rule.valid_remaining_points
            (l.current.points - (l.current.turn.points + t.points)) = true
        · simp only [h5, if_true]
          by_cases h6 : l.current.turn.num_throws + 1 = 3
          · simp only [h6, if_true]
            have hcontrib : (l.data.getD l.current.index ⟨[]⟩).non_bust_points +
                (if (l.with_throw t).current.turn.is_bust then 0
                 else (l.with_throw t).current.turn.points) ≤ rs.score := by
              have hnb : (l.with_throw t).current.turn.is_bust = false := hb
              simp only [hnb, Bool.false_eq_true, if_false, hpts]
              omega
            obtain ⟨g, hg1, hg2, _⟩ :=
              Leg.next_turn_wf rs ps (l.with_throw t) hlen hn hidx hall hcontrib
            exact ⟨_, hg1, hg2⟩
          · simp only [h6, if_false]
            refine ⟨_, rfl, hlen, hn, hidx, hb, hall, hcur, ?_⟩
            show (l.with_throw t).current.turn.points ≤ (l.with_throw t).current.points
            rw [hpts]
            exact h2
        · simp only [h5, if_false]
          obtain ⟨g, hg1, hg2, _⟩ := Leg.bust_turn_wf rs ps (l.with_throw t) hlen hn hidx hall
          exact ⟨_, hg1, hg2⟩
    · simp only [h2, if_false]
      obtain ⟨g, hg1, hg2, _⟩ := Leg.bust_turn_wf rs ps (l.with_throw t) hlen hn hidx hall
      exact ⟨_, hg1, hg2⟩

/-- Any successfully created leg satisfies the invariant. -/
theorem Leg.new_at_wf (rs : Ruleset) (ps : Participants) (i : Nat) (l : Leg)
    (h : Leg.new_at rs ps i = some l) : LegWF rs ps l := by
  simp only [Leg.new_at, Leg.begin_turn, Leg.calculate_score, List.getElem?_replicate] at h
  by_cases hi : i < ps.count
  · simp only [hi, if_true] at h
    have h0 : (⟨[]⟩ : ParticipantData).non_bust_points = 0 := rfl
    rw [h0] at h
    simp only [Nat.zero_le, if_true] at h
    cases h
    refine ⟨by simp, by omega, by simpa using hi, rfl, ?_, ?_, ?_⟩
    · intro j hj
      have hj' : j < ps.count := by simpa using hj
      have : (List.replicate ps.count (⟨[]⟩ : ParticipantData)).getD j ⟨[]⟩ = ⟨[]⟩ :=
        getD_eq_of_getElem? (by simp [List.getElem?_replicate, hj'])
      rw [this, h0]
      omega
    · have : (List.replicate ps.count (⟨[]⟩ : ParticipantData)).getD i ⟨[]⟩ = ⟨[]⟩ :=
        getD_eq_of_getElem? (by simp [List.getElem?_replicate, hi])
      simp only [this, h0]
      omega
    · simp [Turn.points, Turn.new]
  · simp [hi] at h

/-- Every leg state reachable through the public API is well-formed. -/
theorem reachable_wf (rs : Ruleset) (ps : Participants) (l : Leg)
    (h : Reachable rs ps l) : LegWF rs ps l := by
  induction h with
  | new l hl => exact Leg.new_at_wf rs ps 0 l hl
  | step l t r hr hv hadd ih =>
      obtain ⟨r', h1, h2⟩ := Leg.add_throw_wf rs ps l t ih
      rw [hadd] at h1
      cases h1
      exact h2

/-- C7: `Turn::add_throw` fails only when the turn is already bust; otherwise
it appends the throw, with no 3-throw check in the value type itself — the
3-throw cap is the Leg state machine's `num_throws == 3` turn boundary, not a
`Turn` rule. -/
theorem c7_turn_add_throw_no_cap (turn : Turn) (t : Throw) :
    (turn.is_bust = true → turn.add_throw t = Except.error TurnAddThrowError.Bust) ∧
    (turn.is_bust = false → turn.add_throw t = Except.ok ⟨turn.throws ++ [t], false⟩) := by
  constructor
  · intro h
    have hb : turn.bust = true := h
    simp [Turn.add_throw, hb]
  · intro h
    have hb : turn.bust = false := h
    simp [Turn.add_throw, hb]

/-- C7 witness: a non-bust turn already holding 3 throws accepts a 4th; a
bust turn rejects any append. -/
theorem c7_witness :
    Turn.add_throw ⟨[Throw.Miss, Throw.Miss, Throw.Miss], false⟩
        (Throw.Number Multiplier.Triple 20) =
      Except.ok ⟨[Throw.Miss, Throw.Miss, Throw.Miss] ++ [Throw.Number Multiplier.Triple 20],
        false⟩ ∧
    Turn.add_throw ⟨[], true⟩ Throw.Miss = Except.error TurnAddThrowError.Bust :=
  ⟨(c7_turn_add_throw_no_cap ⟨[Throw.Miss, Throw.Miss, Throw.Miss], false⟩
      (Throw.Number Multiplier.Triple 20)).2 rfl,
   (c7_turn_add_throw_no_cap ⟨[], true⟩ Throw.Miss).1 rfl⟩

/-- C8: from any leg state reachable through the public API (`Leg::new`
followed by `add_throw` calls with constructible throws), `add_throw` cannot
hit the `Invalid state reached` panic in `begin_turn`: the score
recomputation never underflows, and the call always returns a result. -/
theorem c8_reachable_no_panic (rs : Ruleset) (ps : Participants) (l : Leg)
    (h : Reachable rs ps l) (t : Throw) (hv : ThrowValid t = true) :
    (Leg.add_throw rs ps l t).isSome = true := by
  obtain ⟨r, hr, _⟩ := Leg.add_throw_wf rs ps l t (reachable_wf rs ps l h)
  simp [hr]

/-- C8 witness: the fresh 101 leg accepts a throw without reaching a panic. -/
theorem c8_witness :
    (Leg.add_throw rs101 soloRoster ⟨⟨0, 101, Turn.new⟩, [⟨[]⟩]⟩ Throw.Miss).isSome = true :=
  c8_reachable_no_panic rs101 soloRoster ⟨⟨0, 101, Turn.new⟩, [⟨[]⟩]⟩
    (Reachable.new ⟨⟨0, 101, Turn.new⟩, [⟨[]⟩]⟩ rfl) Throw.Miss rfl

/-- C10: on every reachable leg state the points at turn start dominate the
in-progress turn's accumulated points, so the checked subtraction inside
`current_points` succeeds and the accessor returns the live mid-turn
remaining score. -/
theorem c10_current_points_safe (rs : Ruleset) (ps : Participants) (l : Leg)
    (h : Reachable rs ps l) :
    l.current.turn.points ≤ l.current.points ∧
    Leg.current_points l = some (l.current.points - l.current.turn.points) := by
  have hwf := reachable_wf rs ps l h
  obtain ⟨-, -, -, -, -, -, hturn⟩ := hwf
  exact ⟨hturn, by simp [Leg.current_points, hturn]⟩

/-- C10 witness: mid-turn after a Triple-20 from 101, the accessor returns
41 without panicking. -/
theorem c10_witness :
    (60 : Nat) ≤ 101 ∧
    Leg.current_points ⟨⟨0, 101, ⟨[Throw.Number Multiplier.Triple 20], false⟩⟩, [⟨[]⟩]⟩ =
      some 41 :=
  c10_current_points_safe rs101 soloRoster
    ⟨⟨0, 101, ⟨[Throw.Number Multiplier.Triple 20], false⟩⟩, [⟨[]⟩]⟩
    (Reachable.step ⟨⟨0, 101, Turn.new⟩, [⟨[]⟩]⟩ (Throw.Number Multiplier.Triple 20)
      (ThrowResult.unfinished
        ⟨⟨0, 101, ⟨[Throw.Number Multiplier.Triple 20], false⟩⟩, [⟨[]⟩]⟩)
      (Reachable.new ⟨⟨0, 101, Turn.new⟩, [⟨[]⟩]⟩ rfl) rfl rfl)

/-- C1: when the appended turn total exceeds the points remaining (and the
in-rule check did not fire), `Leg::add_throw` takes the underflow branch: the
throw is classified `scoredOver` and handled as a bust — with no hypothesis
on the out rule or on the throw's multiplier, so this holds even when the
throw would also have been an invalid finisher, capturing the fixed check
order of the source. -/
theorem c1_overthrow_beats_finisher (rs : Ruleset) (ps : Participants) (l : Leg) (t : Throw)
    (hb : l.current.turn.bust = false)
    (hpd : (l.data[l.current.index]?).isSome = true)
    (hnin : (l.first_throw_cond && !(rs.in_rule.valid_throw t)) = false)
    (hover : l.current.points < l.current.turn.points + t.points) :
    Leg.classify_throw rs l t = ThrowClass.scoredOver ∧
    Leg.add_throw rs ps l t = Leg.bust_turn rs ps (l.with_throw t) := by
  obtain ⟨pd, hpd'⟩ := Option.isSome_iff_exists.mp hpd
  have hpts : Turn.points ⟨l.current.turn.throws ++ [t], l.current.turn.bust⟩ =
      l.current.turn.points + t.points := Turn.points_push l.current.turn t hb
  constructor
  · simp only [Leg.classify_throw, hnin, Bool.false_eq_true, if_false, hpts]
    rw [if_pos hover]
  · rw [Leg.add_throw_eq rs ps l t pd hpd' hb]
    simp only [hnin, Bool.false_eq_true, if_false]
    have hnle : ¬ (l.current.turn.points + t.points ≤ l.current.points) := by omega
    rw [if_neg hnle]

/-- C1 witness: from 41 remaining under Double-out, a Triple-20 both exceeds
the remaining points and is an invalid finisher; it is classified as the
underflow bust (`scoredOver`), not as a bad finisher. -/
theorem c1_witness :
    OutRule.valid_finisher rs101DoubleOut.out_rule t20 = false ∧
    Leg.classify_throw rs101DoubleOut overthrowLeg t20 = ThrowClass.scoredOver ∧
    Leg.add_throw rs101DoubleOut soloRoster overthrowLeg t20 =
      Leg.bust_turn rs101DoubleOut soloRoster (overthrowLeg.with_throw t20) := by
  refine ⟨by decide, ?_, ?_⟩
  · exact (c1_overthrow_beats_finisher rs101DoubleOut soloRoster overthrowLeg t20
      rfl rfl rfl (by decide)).1
  · exact (c1_overthrow_beats_finisher rs101DoubleOut soloRoster overthrowLeg t20
      rfl rfl rfl (by decide)).2

/-- Shared shape of the bust outcome of `Leg::add_throw`: ending in
`bust_turn` from the state with the throw appended pushes the busted turn
(throws preserved, flag set) into the thrower's history and rotates play,
returning Unfinished. -/
theorem Leg.bust_outcome (rs : Ruleset) (ps : Participants) (l : Leg) (t : Throw)
    (hlen : l.data.length = ps.count) (hn : 0 < ps.count)
    (hidx : l.current.index < ps.count)
    (hall : ∀ i < l.data.length, (l.data.getD i ⟨[]⟩).non_bust_points ≤ rs.score) :
    ∃ g : Leg,
      Leg.bust_turn rs ps (l.with_throw t) = some (ThrowResult.unfinished g) ∧
      g.current.index = (l.current.index + 1) % ps.count ∧
      Leg.turns_at g l.current.index =
        Leg.turns_at l l.current.index ++ [⟨l.current.turn.throws ++ [t], true⟩] := by
  obtain ⟨g, hg1, hg2, hg3, hg4, hg5, hg6⟩ :=
    Leg.bust_turn_wf rs ps (l.with_throw t) hlen hn hidx hall
  refine ⟨g, hg1, hg3, ?_⟩
  rw [Leg.turns_at, hg5]
  simp only [Leg.with_throw]
  rw [getD_set_self _ _ _ _ (by omega : l.current.index < l.data.length)]
  simp [Leg.turns_at, Turn.set_bust]

/-- C5: under a Double out-rule, a throw that brings the remaining points to
exactly 0 but is not a Double is a bust, not a win: the in-progress turn is
marked bust and pushed to history, play rotates to the next player, and the
state returned is Unfinished — never Finished. -/
theorem c5_wrong_finisher_is_bust (rs : Ruleset) (ps : Participants) (l : Leg) (t : Throw)
    (hwf : LegWF rs ps l)
    (hout : rs.out_rule = OutRule.Double)
    (hnin : (l.first_throw_cond && !(rs.in_rule.valid_throw t)) = false)
    (hzero : l.current.points = l.current.turn.points + t.points)
    (hmult : t.multiplier ≠ some Multiplier.Double) :
    ∃ g : Leg,
      Leg.add_throw rs ps l t = some (ThrowResult.unfinished g) ∧
      g.current.index = (l.current.index + 1) % ps.count ∧
      Leg.turns_at g l.current.index =
        Leg.turns_at l l.current.index ++ [⟨l.current.turn.throws ++ [t], true⟩] := by
  obtain ⟨hlen, hn, hidx, hb, hall, hcur, hturn⟩ := hwf
  obtain ⟨pd, hpd⟩ : ∃ pd, l.data[l.current.index]? = some pd :=
    ⟨_, List.getElem?_eq_getElem (by omega)⟩
  rw [Leg.add_throw_eq rs ps l t pd hpd hb]
  simp only [hnin, Bool.false_eq_true, if_false]
  have hle : l.current.turn.points + t.points ≤ l.current.points := by omega
  have h0 : l.current.points - (l.current.turn.points + t.points) = 0 := by omega
  rw [if_pos hle, if_pos h0]
  have hfin : rs.out_rule.valid_finisher t = false := by
    rw [hout]
    simpa [OutRule.valid_finisher] using hmult
  simp only [hfin, Bool.false_eq_true, if_false]
  exact Leg.bust_outcome rs ps l t hlen hn hidx hall

/-- C5 witness: from 101 under Double-out, after Triple-20 and Triple-13 a
Single-2 reaches exactly 0 but busts the turn, rotates play, and the result
is Unfinished. -/
theorem c5_witness :
    ∃ g : Leg,
      Leg.add_throw rs101DoubleOut soloRoster checkoutLeg s2 =
        some (ThrowResult.unfinished g) ∧
      g.current.index = (checkoutLeg.current.index + 1) % soloRoster.count ∧
      Leg.turns_at g checkoutLeg.current.index =
        Leg.turns_at checkoutLeg checkoutLeg.current.index ++
          [⟨checkoutLeg.current.turn.throws ++ [s2], true⟩] :=
  c5_wrong_finisher_is_bust rs101DoubleOut soloRoster checkoutLeg s2
    (by decide) rfl rfl (by decide) (by decide)

/-- C6: a non-finishing throw that leaves the remaining points below the
out-rule floor is a bust, even though no throw-count or underflow condition
was hit: the turn is marked bust and pushed to history and play rotates. -/
theorem c6_unreachable_remainder_is_bust (rs : Ruleset) (ps : Participants) (l : Leg)
    (t : Throw)
    (hwf : LegWF rs ps l)
    (hnin : (l.first_throw_cond && !(rs.in_rule.valid_throw t)) = false)
    (hrem : l.current.turn.points + t.points < l.current.points)
    (hbad : rs.out_rule.valid_remaining_points
        (l.current.points - (l.current.turn.points + t.points)) = false) :
    ∃ g : Leg,
      Leg.add_throw rs ps l t = some (ThrowResult.unfinished g) ∧
      g.current.index = (l.current.index + 1) % ps.count ∧
      Leg.turns_at g l.current.index =
        Leg.turns_at l l.current.index ++ [⟨l.current.turn.throws ++ [t], true⟩] := by
  obtain ⟨hlen, hn, hidx, hb, hall, hcur, hturn⟩ := hwf
  obtain ⟨pd, hpd⟩ : ∃ pd, l.data[l.current.index]? = some pd :=
    ⟨_, List.getElem?_eq_getElem (by omega)⟩
  rw [Leg.add_throw_eq rs ps l t pd hpd hb]
  simp only [hnin, Bool.false_eq_true, if_false]
  have hle : l.current.turn.points + t.points ≤ l.current.points := by omega
  have h0 : ¬ (l.current.points - (l.current.turn.points + t.points) = 0) := by omega
  rw [if_pos hle, if_neg h0]
  simp only [hbad, Bool.false_eq_true, if_false]
  exact Leg.bust_outcome rs ps l t hlen hn hidx hall

/-- C6 witness: from 41 remaining under Double-out, a Double-20 leaves
exactly 1 point — below the Double floor of 2 — and busts the turn even
though neither the 3-throw boundary nor an underflow was hit. -/
theorem c6_witness :
    ∃ g : Leg,
      Leg.add_throw rs101DoubleOut soloRoster overthrowLeg d20 =
        some (ThrowResult.unfinished g) ∧
      g.current.index = (overthrowLeg.current.index + 1) % soloRoster.count ∧
      Leg.turns_at g overthrowLeg.current.index =
        Leg.turns_at overthrowLeg overthrowLeg.current.index ++
          [⟨overthrowLeg.current.turn.throws ++ [d20], true⟩] :=
  c6_unreachable_remainder_is_bust rs101DoubleOut soloRoster overthrowLeg d20
    (by decide) rfl (by decide) (by decide)

/-- Inversion of a successful `Leg::begin_turn`. -/
theorem Leg.begin_turn_inv (rs : Ruleset) (l : Leg) (i : Nat) (g : Leg)
    (h : Leg.begin_turn rs l i = some g) :
    ∃ pd : ParticipantData,
      l.data[i]? = some pd ∧ pd.non_bust_points ≤ rs.score ∧
      g = { l with current := ⟨i, rs.score - pd.non_bust_points, Turn.new⟩ } := by
  simp only [Leg.begin_turn, Leg.calculate_score] at h
  cases hpd : l.data[i]? with
  | none => simp [hpd] at h
  | some pd =>
      simp only [hpd] at h
      by_cases hle : pd.non_bust_points ≤ rs.score
      · simp only [hle, if_true] at h
        injection h with h'
        exact ⟨pd, rfl, hle, h'.symm⟩
      · simp [hle] at h

/-- Inversion of a successful `Leg::next_turn`: what the returned state must
look like — ended turn pushed, rotation by one, points recomputed by
`begin_turn` from the incoming player's non-bust history. -/
theorem Leg.next_turn_inv (rs : Ruleset) (ps : Participants) (l : Leg) (r : ThrowResult)
    (h : Leg.next_turn rs ps l = some r) :
    ∃ pd pd' : ParticipantData,
      l.data[l.current.index]? = some pd ∧
      r.state = State.Unfinished ∧
      r.game.data = l.data.set l.current.index ⟨pd.turns ++ [l.current.turn]⟩ ∧
      r.game.current.index = (l.current.index + 1) % ps.count ∧
      r.game.data[(l.current.index + 1) % ps.count]? = some pd' ∧
      pd'.non_bust_points ≤ rs.score ∧
      r.game.current.points = rs.score - pd'.non_bust_points ∧
      r.game.current.turn = Turn.new := by
  simp only [Leg.next_turn] at h
  split at h
  · exact Option.noConfusion h
  · rename_i pd hpd
    split at h
    · exact Option.noConfusion h
    · rw [Option.map_eq_some'] at h
      obtain ⟨g, hg, hr⟩ := h
      obtain ⟨pd', hpd', hle, hgeq⟩ := Leg.begin_turn_inv rs _ _ g hg
      subst hgeq
      subst hr
      exact ⟨pd, pd', hpd, rfl, rfl, rfl, by exact hpd', hle, rfl, rfl⟩

/-- C4: whenever a turn ends, the incoming player's remaining points are
recomputed as `Ruleset.score` minus the sum of that player's non-bust
historical turn points; and a turn ended through `bust_turn` contributes
nothing to that sum, permanently. -/
theorem c4_points_recomputed_from_history (rs : Ruleset) (ps : Participants) (l : Leg)
    (r : ThrowResult) :
    (Leg.next_turn rs ps l = some r →
      r.state = State.Unfinished ∧
      r.game.current.index = (l.current.index + 1) % ps.count ∧
      (⟨Leg.turns_at r.game r.game.current.index⟩ : ParticipantData).non_bust_points ≤
        rs.score ∧
      r.game.current.points =
        rs.score -
          (⟨Leg.turns_at r.game r.game.current.index⟩ : ParticipantData).non_bust_points) ∧
    (Leg.bust_turn rs ps l = some r →
      (⟨Leg.turns_at r.game l.current.index⟩ : ParticipantData).non_bust_points =
        (⟨Leg.turns_at l l.current.index⟩ : ParticipantData).non_bust_points) := by
  constructor
  · intro h
    obtain ⟨pd, pd', hpd, hstate, hdata, hidx, hpd', hle, hpts, hturn⟩ :=
      Leg.next_turn_inv rs ps l r h
    have hgd : r.game.data.getD r.game.current.index ⟨[]⟩ = pd' := by
      rw [hidx]
      exact getD_eq_of_getElem? hpd'
    refine ⟨hstate, hidx, ?_, ?_⟩
    · simp only [Leg.turns_at, hgd]
      exact hle
    · simp only [Leg.turns_at, hgd]
      exact hpts
  · intro h
    obtain ⟨pd, pd', hpd, hstate, hdata, hidx, hpd', hle, hpts, hturn⟩ :=
      Leg.next_turn_inv rs ps
        { l with current := { l.current with turn := l.current.turn.set_bust } } r h
    have hpd2 : l.data[l.current.index]? = some pd := hpd
    have hlt : l.current.index < l.data.length := by
      obtain ⟨hlt, -⟩ := List.getElem?_eq_some_iff.mp hpd2
      exact hlt
    have hdata2 : r.game.data =
        l.data.set l.current.index ⟨pd.turns ++ [l.current.turn.set_bust]⟩ := hdata
    have hgd : l.data.getD l.current.index ⟨[]⟩ = pd := getD_eq_of_getElem? hpd2
    simp only [Leg.turns_at, hdata2, hgd]
    rw [getD_set_self _ _ _ _ hlt]
    have hpush := ParticipantData.non_bust_points_push pd l.current.turn.set_bust
    have hbust : l.current.turn.set_bust.is_bust = true := rfl
    rw [hbust] at hpush
    simpa using hpush

/-- C4 witness: from 101, Triple-20 then Triple-20 busts the turn (the
second throw makes the turn worth 120, exceeding 101); the busted turn
contributes 0 and the sole player's points are the full 101 again at the
start of the next turn. -/
theorem c4_witness :
    Leg.add_throw rs101 soloRoster ⟨⟨0, 101, ⟨[t20], false⟩⟩, [⟨[]⟩]⟩ t20 =
      some (ThrowResult.unfinished ⟨⟨0, 101, Turn.new⟩, [⟨[⟨[t20, t20], true⟩]⟩]⟩) ∧
    State.Unfinished = State.Unfinished ∧
    (0 : Nat) = (0 + 1) % 1 ∧
    (⟨Leg.turns_at (⟨⟨0, 101, Turn.new⟩, [⟨[⟨[t20, t20], true⟩]⟩]⟩ : Leg) 0⟩ :
        ParticipantData).non_bust_points ≤ 101 ∧
    (101 : Nat) =
      101 - (⟨Leg.turns_at (⟨⟨0, 101, Turn.new⟩, [⟨[⟨[t20, t20], true⟩]⟩]⟩ : Leg) 0⟩ :
        ParticipantData).non_bust_points ∧
    (⟨Leg.turns_at (⟨⟨0, 101, Turn.new⟩, [⟨[⟨[t20, t20], true⟩]⟩]⟩ : Leg) 0⟩ :
        ParticipantData).non_bust_points =
      (⟨Leg.turns_at (⟨⟨0, 101, ⟨[t20, t20], true⟩⟩, [⟨[]⟩]⟩ : Leg) 0⟩ :
        ParticipantData).non_bust_points := by
  have h1 := (c4_points_recomputed_from_history rs101 soloRoster
    ⟨⟨0, 101, ⟨[t20, t20], true⟩⟩, [⟨[]⟩]⟩
    (ThrowResult.unfinished ⟨⟨0, 101, Turn.new⟩, [⟨[⟨[t20, t20], true⟩]⟩]⟩)).1 rfl
  have h2 := (c4_points_recomputed_from_history rs101 soloRoster
    ⟨⟨0, 101, ⟨[t20, t20], false⟩⟩, [⟨[]⟩]⟩
    (ThrowResult.unfinished ⟨⟨0, 101, Turn.new⟩, [⟨[⟨[t20, t20], true⟩]⟩]⟩)).2 rfl
  exact ⟨rfl, h1.1, h1.2.1, h1.2.2.1, h1.2.2.2, h2⟩

/-- Pushing a turn onto a history slot, seen through `turns_at`. -/
theorem Leg.turns_at_set_push (l : Leg) (i : Nat) (g : Leg) (turn : Turn)
    (hlt : i < l.data.length)
    (hdata : g.data = l.data.set i ⟨(l.data.getD i ⟨[]⟩).turns ++ [turn]⟩) :
    Leg.turns_at g i = Leg.turns_at l i ++ [turn] := by
  rw [Leg.turns_at, hdata, getD_set_self _ _ _ _ hlt, Leg.turns_at]

/-- C2 (amended): the `first_throw` condition inside `add_throw` is true
whenever the active player has no completed turns in this leg and the
in-progress turn has zero throws — which happens at every player's first
throw of their own first turn, not only the leg's first player's opening
throw; the in-rule therefore gates each player's opening throw. -/
theorem c2_first_throw_every_player (rs : Ruleset) (ps : Participants) (l : Leg) (t : Throw)
    (hwf : LegWF rs ps l)
    (hhist : Leg.turns_at l l.current.index = [])
    (hturn : l.current.turn.throws = [])
    (hin : rs.in_rule.valid_throw t = false) :
    l.first_throw_cond = true ∧
    Leg.add_throw rs ps l t = Leg.bust_turn rs ps (l.with_throw t) := by
  obtain ⟨hlen, hn, hidx, hb, hall, hcur, hturnle⟩ := hwf
  obtain ⟨pd, hpd⟩ : ∃ pd, l.data[l.current.index]? = some pd :=
    ⟨_, List.getElem?_eq_getElem (by omega)⟩
  have hgd : l.data.getD l.current.index ⟨[]⟩ = pd := getD_eq_of_getElem? hpd
  have hpdturns : pd.turns = [] := by
    rw [Leg.turns_at, hgd] at hhist
    exact hhist
  have hcond : l.first_throw_cond = true := by
    simp [Leg.first_throw_cond, hpd, hpdturns, Turn.num_throws, hturn]
  have hcbool : (l.first_throw_cond && !(rs.in_rule.valid_throw t)) = true := by
    rw [hcond, hin]
    rfl
  rw [Leg.add_throw_eq rs ps l t pd hpd hb, if_pos hcbool]
  exact ⟨hcond, rfl⟩

/-- C2 counterexample: with two players under a Double in-rule, after the
first player's opening Single-1 (busted by the in-rule) the active player is
index 1 — not the leg's first player — and the `first_throw` condition is
true again; the second Single-1 is then also busted by the in-rule, leaving
a bust turn in player 1's history. -/
theorem c2_counterexample :
    ((Leg.new rs101DoubleIn duoRoster).bind fun l0 =>
      (Leg.add_throw rs101DoubleIn duoRoster l0 s1).map fun r1 =>
        (r1.game.current.index, r1.game.first_throw_cond)) = some (1, true) ∧
    ((Leg.new rs101DoubleIn duoRoster).bind fun l0 =>
      (Leg.add_throw rs101DoubleIn duoRoster l0 s1).bind fun r1 =>
        (Leg.add_throw rs101DoubleIn duoRoster r1.game s1).map fun r2 =>
          (r2.game.current.index, (Leg.turns_at r2.game 1).map Turn.is_bust)) =
      some (0, [true]) := by
  decide

/-- C2 witness: the amended statement applied at the second player's first
throw of their first turn. -/
theorem c2_witness :
    Leg.first_throw_cond secondPlayerLeg = true ∧
    Leg.add_throw rs101DoubleIn duoRoster secondPlayerLeg s1 =
      Leg.bust_turn rs101DoubleIn duoRoster (secondPlayerLeg.with_throw s1) :=
  c2_first_throw_every_player rs101DoubleIn duoRoster secondPlayerLeg s1
    (by decide) rfl rfl rfl

/-- C3 (amended): a turn ended by bust or by the 3-throw boundary is moved
into the throwing player's permanent history; but a finishing throw that
wins the leg does NOT move the turn — on a Finished result the histories
are unchanged and the finishing turn remains in the in-progress slot. -/
theorem c3_turn_history (rs : Ruleset) (ps : Participants) (l : Leg) (t : Throw)
    (r : ThrowResult)
    (hwf : LegWF rs ps l)
    (h : Leg.add_throw rs ps l t = some r) :
    (r.state = State.Finished →
      r.game.data = l.data ∧
      r.game.current.turn.throws = l.current.turn.throws ++ [t]) ∧
    (r.state = State.Unfinished →
      (r.game.data = l.data ∧
       r.game.current.turn.throws = l.current.turn.throws ++ [t]) ∨
      (r.game.current.turn = Turn.new ∧
       ∃ turn : Turn, turn.throws = l.current.turn.throws ++ [t] ∧
         Leg.turns_at r.game l.current.index =
           Leg.turns_at l l.current.index ++ [turn])) := by
  obtain ⟨hlen, hn, hidx, hb, hall, hcur, hturn⟩ := hwf
  obtain ⟨pd, hpd⟩ : ∃ pd, l.data[l.current.index]? = some pd :=
    ⟨_, List.getElem?_eq_getElem (by omega)⟩
  have hbustcase : ∀ r' : ThrowResult,
      Leg.bust_turn rs ps (l.with_throw t) = some r' →
      (r'.state = State.Finished →
        r'.game.data = l.data ∧
        r'.game.current.turn.throws = l.current.turn.throws ++ [t]) ∧
      (r'.state = State.Unfinished →
        (r'.game.data = l.data ∧
         r'.game.current.turn.throws = l.current.turn.throws ++ [t]) ∨
        (r'.game.current.turn = Turn.new ∧
         ∃ turn : Turn, turn.throws = l.current.turn.throws ++ [t] ∧
           Leg.turns_at r'.game l.current.index =
             Leg.turns_at l l.current.index ++ [turn])) := by
    intro r' hr'
    obtain ⟨g, hg1, hg2, hg3, hg4, hg5, hg6⟩ :=
      Leg.bust_turn_wf rs ps (l.with_throw t) hlen hn hidx hall
    rw [hg1] at hr'
    injection hr' with hr''
    subst hr''
    constructor
    · intro hst
      exact State.noConfusion hst
    · intro _
      right
      have hg5' : g.data = l.data.set l.current.index
          ⟨(l.data.getD l.current.index ⟨[]⟩).turns ++
            [(l.with_throw t).current.turn.set_bust]⟩ := hg5
      refine ⟨hg4, (l.with_throw t).current.turn.set_bust, rfl, ?_⟩
      exact Leg.turns_at_set_push l l.current.index g _ (by omega) hg5'
  rw [Leg.add_throw_eq rs ps l t pd hpd hb] at h
  by_cases h1 : (l.first_throw_cond && !(rs.in_rule.valid_throw t)) = true
  · rw [if_pos h1] at h
    exact hbustcase r h
  · rw [if_neg h1] at h
    by_cases h2 : l.current.turn.points + t.points ≤ l.current.points
    · rw [if_pos h2] at h
      by_cases h3 : l.current.points - (l.current.turn.points + t.points) = 0
      · rw [if_pos h3] at h
        by_cases h4 : rs.out_rule.valid_finisher t = true
        · rw [if_pos (by simp [h4])] at h
          injection h with h'
          subst h'
          constructor
          · intro _
            exact ⟨rfl, rfl⟩
          · intro hst
            exact State.noConfusion hst
        · rw [if_neg (by simp [h4] : ¬ (rs.out_rule.valid_finisher t = true))] at h
          exact hbustcase r h
      · rw [if_neg h3] at h
        by_cases h5 : rs.out_rule.valid_remaining_points
            (l.current.points - (l.current.turn.points + t.points)) = true
        · rw [if_pos (by simp [h5])] at h
          by_cases h6 : l.current.turn.num_throws + 1 = 3
          · rw [if_pos h6] at h
            have hcontrib : (l.data.getD l.current.index ⟨[]⟩).non_bust_points +
                (if (l.with_throw t).current.turn.is_bust then 0
                 else (l.with_throw t).current.turn.points) ≤ rs.score := by
              have hnb : (l.with_throw t).current.turn.is_bust = false := hb
              have hpts : (l.with_throw t).current.turn.points =
                  l.current.turn.points + t.points := by
                simp [Leg.with_throw, Turn.points, hb]
              simp only [hnb, Bool.false_eq_true, if_false, hpts]
              omega
            obtain ⟨g, hg1, hg2, hg3, hg4, hg5, hg6⟩ :=
              Leg.next_turn_wf rs ps (l.with_throw t) hlen hn hidx hall hcontrib
            rw [hg1] at h
            injection h with h'
            subst h'
            constructor
            · intro hst
              exact State.noConfusion hst
            · intro _
              right
              have hg5' : g.data = l.data.set l.current.index
                  ⟨(l.data.getD l.current.index ⟨[]⟩).turns ++
                    [(l.with_throw t).current.turn]⟩ := hg5
              refine ⟨hg4, (l.with_throw t).current.turn, rfl, ?_⟩
              exact Leg.turns_at_set_push l l.current.index g _ (by omega) hg5'
          · rw [if_neg h6] at h
            injection h with h'
            subst h'
            constructor
            · intro hst
              exact State.noConfusion hst
            · intro _
              left
              exact ⟨rfl, rfl⟩
        · rw [if_neg (by simp [h5] : ¬ (rs.out_rule.valid_remaining_points
              (l.current.points - (l.current.turn.points + t.points)) = true))] at h
          exact hbustcase r h
    · rw [if_neg h2] at h
      exact hbustcase r h

/-- C3 counterexample: from 101 with one player, Triple-20, Double-20 then
Single-1 finishes the leg — yet the finishing turn is NOT in the player's
history: the history is still empty on the Finished result. -/
theorem c3_counterexample :
    ((Leg.new rs101 soloRoster).bind fun l0 =>
      (Leg.add_throw rs101 soloRoster l0 t20).bind fun r1 =>
      (Leg.add_throw rs101 soloRoster r1.game d20).bind fun r2 =>
      (Leg.add_throw rs101 soloRoster r2.game s1).map fun r3 =>
        (r3.state, Leg.turns_at r3.game 0)) = some (State.Finished, []) := by
  decide

/-- C3 witness: the amended statement at the finishing Single-1 — the
Finished result keeps the histories unchanged and the finishing turn in the
in-progress slot. -/
theorem c3_witness :
    finishedResult.game.data = finishLeg.data ∧
    finishedResult.game.current.turn.throws = finishLeg.current.turn.throws ++ [s1] :=
  (c3_turn_history rs101 soloRoster finishLeg s1 finishedResult (by decide) rfl).1 rfl

/-- Two rulesets differing only in `SetOptions` are indistinguishable to the
leg-level scoring loop. -/
theorem Leg.add_throw_sets_irrel (sc : Nat) (ir : InRule) (orr : OutRule)
    (so1 so2 : SetOptions) (ps : Participants) (l : Leg) (t : Throw) :
    Leg.add_throw ⟨sc, ir, orr, so1⟩ ps l t = Leg.add_throw ⟨sc, ir, orr, so2⟩ ps l t := rfl

/-- `Set::add_throw` never consults `SetOptions` either. -/
theorem Set.step_sets_irrel (sc : Nat) (ir : InRule) (orr : OutRule)
    (so1 so2 : SetOptions) (ps : Participants) (s : Set) (t : Throw) :
    Set.add_throw ⟨sc, ir, orr, so1⟩ ps s t = Set.add_throw ⟨sc, ir, orr, so2⟩ ps s t := rfl

/-- C9: the set-completion configuration (`num_sets`, `num_legs`,
`win_distance`) is accepted at construction but never consulted by the
scoring loop: two rulesets differing only in `SetOptions` yield identical
`Set::new` results and identical outcomes on any throw sequence fed through
`Set::add_throw`; and after every finished leg a fresh leg begins with the
starting player rotated by one modulo the participant count, regardless of
how many legs have been completed. -/
theorem c9_set_options_unused :
    (∀ (sc : Nat) (ir : InRule) (orr : OutRule) (so1 so2 : SetOptions)
        (ps : Participants) (fp : Nat),
        Set.new ⟨sc, ir, orr, so1⟩ ps fp = Set.new ⟨sc, ir, orr, so2⟩ ps fp) ∧
    (∀ (sc : Nat) (ir : InRule) (orr : OutRule) (so1 so2 : SetOptions)
        (ps : Participants) (s : Set) (ts : List Throw),
        Set.run ⟨sc, ir, orr, so1⟩ ps s ts = Set.run ⟨sc, ir, orr, so2⟩ ps s ts) ∧
    (∀ (rs : Ruleset) (ps : Participants) (s : Set) (t : Throw) (leg : Leg),
        Leg.add_throw rs ps s.current_leg t = some ⟨State.Finished, leg⟩ →
        Set.add_throw rs ps s t =
          (Leg.new_at rs ps ((s.first_player + 1) % ps.count)).map
            (fun fresh => ⟨s.legs ++ [leg], fresh, (s.first_player + 1) % ps.count⟩)) := by
  refine ⟨fun sc ir orr so1 so2 ps fp => rfl, ?_, ?_⟩
  · intro sc ir orr so1 so2 ps s ts
    induction ts generalizing s with
    | nil => rfl
    | cons t rest ih =>
        simp only [Set.run]
        rw [Set.step_sets_irrel sc ir orr so1 so2 ps s t]
        cases h2 : Set.add_throw ⟨sc, ir, orr, so2⟩ ps s t with
        | none => rfl
        | some s' => exact ih s'
  · intro rs ps s t leg h
    simp only [Set.add_throw, h]

/-- C9 witness: finishing the current leg of a one-player set appends it to
the leg history and starts a fresh leg with the starting player rotated by
one modulo the roster size. -/
theorem c9_witness :
    Set.add_throw rs101 soloRoster ⟨[], finishLeg, 0⟩ s1 =
      (Leg.new_at rs101 soloRoster ((0 + 1) % soloRoster.count)).map
        (fun fresh => ⟨[] ++ [⟨⟨0, 101, ⟨[t20, d20, s1], false⟩⟩, [⟨[]⟩]⟩], fresh,
          (0 + 1) % soloRoster.count⟩) :=
  c9_set_options_unused.2.2 rs101 soloRoster ⟨[], finishLeg, 0⟩ s1
    ⟨⟨0, 101, ⟨[t20, d20, s1], false⟩⟩, [⟨[]⟩]⟩ rfl

end Darts
